import Mathlib

/-!
Verification of the `ioBuffer` byte buffer (package `buffer`).

The Go type `ioBuffer` holds a slice `buf` over pooled storage, a read
offset `off`, a mark `offMark` (sentinel `-1` when unset), a shared
`*atomic.Int32` reference counter (`nil` possible), and an `eof` flag.

Shallow embedding conventions:
  * the slice `buf[0:len]` is a `List Nat` of byte values; the capacity of
    the underlying storage is the extra field `capa` (`cap(b.buf)` in Go);
  * Go `int` / `int64` values that can go negative (`off`, `offMark`,
    counts passed by callers) are `Int`; lengths are `Nat`;
  * a Go run-time panic (slice bounds, negative `make`, nil dereference)
    is `Option.none` in the result type;
  * bytes exposed by a reslice before being overwritten are modelled as
    zeros; every such region is fully overwritten by the subsequent
    `copy` in the source, so no observable value depends on this choice;
  * the external pool (`GetBytes`/`PutBytes`) is modelled as returning a
    fresh region of exactly the requested size; the pooled-pointer field
    `b *[]byte` has no observable effect on any claim and is omitted.
-/

namespace BufferProof

def MinRead : Nat := 512

def MaxRead : Nat := 131072

def ResetOffMark : Int := -1

def DefaultSize : Nat := 16

/-- Errors that flow through the buffer API: `io.EOF`, a `net.Error`
whose `Timeout()` is true, and any other error. -/
inductive GoErr where
  | eofE : GoErr
  | timeoutE : GoErr
  | otherE : GoErr
deriving DecidableEq

/-- The `ioBuffer` struct. `buf` is the logical content `buf[0:len]`,
`capa` is `cap(b.buf)`. -/
structure ioBuffer where
  buf : List Nat
  capa : Nat
  off : Int
  offMark : Int
  count : Option Int
  eof : Bool
deriving DecidableEq

/-- Go `copy(dst, src)`: copies `min (len dst) (len src)` bytes into the
front of `dst`, returning the new contents of `dst`. -/
def goCopy (dst src : List Nat) : List Nat :=
  src.take (min dst.length src.length) ++ dst.drop (min dst.length src.length)

/-- The byte count returned by Go `copy(dst, src)`. -/
def goCopyLen (dst src : List Nat) : Nat :=
  min dst.length src.length

/-- Go reslice `l[:k]` for `k` up to capacity: bytes past `l.length` come
from storage and are modelled as zeros. -/
def setLen (l : List Nat) (k : Nat) : List Nat :=
  l.take k ++ List.replicate (k - l.length) 0

/-- `Len()` returns `len(b.buf) - b.off` (a Go `int`). -/
def Len (b : ioBuffer) : Int :=
  (b.buf.length : Int) - b.off

/-- `Reset()` does `b.buf = b.buf[:0]`, clearing offsets, mark and eof;
capacity is retained. -/
def Reset (b : ioBuffer) : ioBuffer :=
  { b with buf := [], off := 0, offMark := ResetOffMark, eof := false }

/-- `Bytes()` returns `b.buf[b.off:]`. -/
def Bytes (b : ioBuffer) : List Nat :=
  b.buf.drop b.off.toNat

/-- `Mark()` sets `b.offMark = b.off`. -/
def Mark (b : ioBuffer) : ioBuffer :=
  { b with offMark := b.off }

/-- `Restore()`: if a mark is set, move `off` back to it and clear it. -/
def Restore (b : ioBuffer) : ioBuffer :=
  if b.offMark ≠ ResetOffMark then { b with off := b.offMark, offMark := ResetOffMark }
  else b

/-- `Drain(offset)`: no-op when `b.off+offset > len(b.buf)`; otherwise
advances `off` and clears the mark.  There is no negativity check, so a
negative `offset` passes the guard and moves `off` backwards. -/
def Drain (b : ioBuffer) (offset : Int) : ioBuffer :=
  if b.off + offset > (b.buf.length : Int) then b
  else { b with off := b.off + offset, offMark := ResetOffMark }

/-- `Peek(n)` returns `nil` (`some none`) when fewer than `n` bytes are
buffered, else the view `b.buf[b.off : b.off+n]`.  A negative `n` passes
the guard and the slice expression `b.buf[b.off : b.off+n]` panics
(`none`). -/
def Peek (b : ioBuffer) (n : Int) : Option (Option (List Nat)) :=
  if (b.buf.length : Int) - b.off < n then some none
  else if n < 0 then none
  else some (some ((b.buf.drop b.off.toNat).take n.toNat))

/-- `Cut(offset)`: `some (none, b)` is the `nil` return (insufficient
data, buffer untouched); `none` is the panic of `make([]byte, offset)` on
a negative `offset`; otherwise the fresh buffer and the advanced source.
The fresh buffer's `offMark` and `count` are Go zero values: `0` and
`nil`. -/
def Cut (b : ioBuffer) (offset : Int) : Option (Option ioBuffer × ioBuffer) :=
  if b.off + offset > (b.buf.length : Int) then some (none, b)
  else if offset < 0 then none
  else
    some (some { buf := (b.buf.drop b.off.toNat).take offset.toNat
                 capa := offset.toNat
                 off := 0
                 offMark := 0
                 count := none
                 eof := false },
          { b with off := b.off + offset, offMark := ResetOffMark })

/-- `Read(p)`: on an exhausted buffer, reset, then succeed with 0 bytes
when `p` is empty and report `io.EOF` otherwise; else copy into `p` and
advance.  Returns (buffer, new contents of `p`, `n`, error). -/
def Read (b : ioBuffer) (p : List Nat) : ioBuffer × List Nat × Nat × Option GoErr :=
  if b.off ≥ (b.buf.length : Int) then
    let b' := Reset b
    if p.length = 0 then (b', p, 0, none)
    else (b', p, 0, some GoErr.eofE)
  else
    let avail := b.buf.drop b.off.toNat
    let n := goCopyLen p avail
    ({ b with off := b.off + (n : Int) }, goCopy p avail, n, none)

/-- `Count(count)` is `b.count.Add(count)`; on the `nil` counter of a
`Cut`-produced buffer the method dereferences `nil` (`none`). -/
def Count (b : ioBuffer) (count : Int) : Option Int :=
  b.count.map (fun c => c + count)

/-- `NewIoBuffer(capacity)`: pooled storage of the requested capacity
(default when `capacity ≤ 0`), empty content, mark unset, counter 1. -/
def NewIoBuffer (capacity : Int) : ioBuffer :=
  { buf := []
    capa := if capacity ≤ 0 then DefaultSize else capacity.toNat
    off := 0
    offMark := ResetOffMark
    count := some 1
    eof := false }

/-- `NewIoBufferString(s)`; the empty string delegates to
`NewIoBuffer 0`. -/
def NewIoBufferString (s : List Nat) : ioBuffer :=
  if s = [] then NewIoBuffer 0
  else
    { buf := s, capa := s.length, off := 0, offMark := ResetOffMark
      count := some 1, eof := false }

/-- `NewIoBufferBytes(bytes)`; `none` models a `nil` slice, which
delegates to `NewIoBuffer 0`. -/
def NewIoBufferBytes (bytes : Option (List Nat)) : ioBuffer :=
  match bytes with
  | none => NewIoBuffer 0
  | some bs =>
      { buf := bs, capa := bs.length, off := 0, offMark := ResetOffMark
        count := some 1, eof := false }

/-- The Go method `ioBuffer.copy(expand)`: with `expand > 0` it obtains a
fresh region of capacity `2*cap + expand` and copies the unread bytes to
its front; with `expand = 0` it slides the unread bytes to the front in
place.  Either way `buf` becomes the unread bytes and `off` becomes 0. -/
def copyBuf (b : ioBuffer) (expand : Nat) : ioBuffer :=
  if 0 < expand then
    { b with buf := b.buf.drop b.off.toNat
             capa := 2 * b.capa + expand
             off := 0 }
  else
    { b with buf := b.buf.drop b.off.toNat, off := 0 }

/-- `tryGrowByReslice(n)`: when `len+n ≤ cap`, reslice to `len+n` and
return the old length with `true`; otherwise `(0, false)` without
touching the buffer. -/
def tryGrowByReslice (b : ioBuffer) (n : Nat) : ioBuffer × Nat × Bool :=
  if b.buf.length + n ≤ b.capa then
    ({ b with buf := setLen b.buf (b.buf.length + n) }, b.buf.length, true)
  else (b, 0, false)

/-- `grow(n)`: reset when logically empty with nonzero `off`, retry the
reslice, otherwise slide (`copy(0)`) when `m+n ≤ cap/2` or reallocate
(`copy(n)`), then set `off = 0`, reslice to `m+n`, and return the
insertion index `m`. -/
def grow (b : ioBuffer) (n : Nat) : ioBuffer × Nat :=
  let m := Len b
  let b1 := if m = 0 ∧ b.off ≠ 0 then Reset b else b
  let t := tryGrowByReslice b1 n
  if t.2.2 then (t.1, t.2.1)
  else
    let b2 := if m + (n : Int) ≤ ((b1.capa / 2 : Nat) : Int) then copyBuf b1 0 else copyBuf b1 n
    ({ b2 with off := 0, buf := setLen b2.buf (m + (n : Int)).toNat }, m.toNat)

/-- `Write(p)`: reslice in place when possible, else `grow(len(p))`, then
`copy(b.buf[m:], p)`.  The Go error result is always `nil` and is
omitted. -/
def Write (b : ioBuffer) (p : List Nat) : ioBuffer × Nat :=
  let t := tryGrowByReslice b p.length
  let r := if t.2.2 then (t.1, t.2.1) else grow b p.length
  let dst := r.1.buf.drop r.2
  ({ r.1 with buf := r.1.buf.take r.2 ++ goCopy dst p }, goCopyLen dst p)

/-- The loop of `WriteTo(w)`.  The sink `w` maps the attempt index to the
pair (bytes it reports accepting, error).  `none` is the
`panic(ErrInvalidWriteCount)` taken when the sink reports accepting more
than the `Len()` bytes offered; otherwise the result is
(total accepted, error, final buffer). -/
def WriteToAux (w : Nat → Nat × Option GoErr) (k : Nat) (b : ioBuffer) (acc : Nat) :
    Option (Nat × Option GoErr × ioBuffer) :=
  if h : b.off < (b.buf.length : Int) then
    let nBytes := Len b
    let m := (w k).1
    let e := (w k).2
    if hm : (m : Int) > nBytes then none
    else
      let b' := { b with off := b.off + (m : Int) }
      if e.isSome then some (acc + m, e, b')
      else if hs : m = 0 ∨ (m : Int) = nBytes then some (acc + m, none, b')
      else WriteToAux w (k + 1) b' (acc + m)
  else some (acc, none, b)
termination_by ((b.buf.length : Int) - b.off).toNat
decreasing_by
  simp only [not_or] at hs
  simp only [not_lt] at hm
  omega

/-- `WriteTo(w)` starts the loop at attempt 0 with nothing accepted. -/
def WriteTo (b : ioBuffer) (w : Nat → Nat × Option GoErr) :
    Option (Nat × Option GoErr × ioBuffer) :=
  WriteToAux w 0 b 0

/-- The space adjustments `ReadOnce` performs before its loop: reset an
exhausted buffer, slide when the unread bytes leave less than
`4*MinRead` of trailing room, and grow by `MinRead` when completely
full. -/
def readOnceSetup (b : ioBuffer) : ioBuffer :=
  let b1 := if b.off ≥ (b.buf.length : Int) then Reset b else b
  let b2 :=
    if 0 < b1.off ∧ (b1.buf.length : Int) - b1.off < 4 * (MinRead : Int) then copyBuf b1 0
    else b1
  if b2.capa = b2.buf.length then copyBuf b2 MinRead else b2

/-- The loop of `ReadOnce`.  `src` maps the attempt index to the bytes the
source delivers and its error; `GoErr.timeoutE` stands for a `net.Error`
whose `Timeout()` is true.  Each attempt reads into the free tail
`buf[len:cap]`, so `m = min (len delivered) (cap - len)`.  `first` and
`loopFlag` are the Go locals `first` and `loop`; the deadline arming on
the connection is a side effect on the source, already reflected in what
`src` returns per attempt.  `fuel` bounds the iterations; every theorem
peels one explicit step. -/
def readOnceLoop (src : Nat → List Nat × Option GoErr) (fuel k : Nat) (b : ioBuffer)
    (n : Int) (first loopFlag : Bool) : ioBuffer × Int × Option GoErr :=
  match fuel with
  | 0 => (b, n, none)
  | fuel + 1 =>
    let b1 :=
      if first = false then
        if b.capa - b.buf.length < MinRead then
          if b.off + ((b.capa - b.buf.length : Nat) : Int) < (MinRead : Int) then
            copyBuf b MinRead
          else copyBuf b 0
        else b
      else b
    let l := b1.capa - b1.buf.length
    let chunk := (src k).1
    let e := (src k).2
    let m := min chunk.length l
    let b2 := if 0 < m then { b1 with buf := b1.buf ++ chunk.take m } else b1
    let n' := n + (m : Int)
    match e with
    | some err =>
        if err = GoErr.timeoutE ∧ first = false then (b2, n', none)
        else (b2, n', some err)
    | none =>
        let lf1 := if l ≠ m then false else loopFlag
        let lf2 := if n' > (MaxRead : Int) then false else lf1
        if lf2 = false then (b2, n', none)
        else readOnceLoop src fuel (k + 1) b2 n' false lf2

/-- `ReadOnce(r, duration)`: `isConn` records whether `r` is a `net.Conn`
(the only thing that enables looping). -/
def ReadOnce (b : ioBuffer) (src : Nat → List Nat × Option GoErr) (isConn : Bool) :
    ioBuffer × Int × Option GoErr :=
  readOnceLoop src (MaxRead + 2) 0 (readOnceSetup b) 0 true isConn

/-- The buffer invariant `0 ≤ readOffset ≤ writeOffset ≤ capacity`. -/
def Inv (b : ioBuffer) : Prop :=
  0 ≤ b.off ∧ b.off ≤ (b.buf.length : Int) ∧ b.buf.length ≤ b.capa

instance (b : ioBuffer) : Decidable (Inv b) := by
  unfold Inv; infer_instance

/-! ## Helper lemmas about growth and writing -/

theorem setLen_extend (l : List Nat) (k : Nat) (h : l.length ≤ k) :
    setLen l k = l ++ List.replicate (k - l.length) 0 := by
  simp [setLen, List.take_of_length_le h]

theorem grow_spec (b : ioBuffer) (n : Nat) (h : Inv b) :
    Inv (grow b n).1 ∧
    (grow b n).1.buf.length = (grow b n).2 + n ∧
    0 ≤ (grow b n).1.off ∧
    (grow b n).1.off.toNat ≤ (grow b n).2 ∧
    ((grow b n).1.buf.take (grow b n).2).drop (grow b n).1.off.toNat = Bytes b ∧
    (grow b n).1.buf.drop (grow b n).2 = List.replicate n 0 ∧
    ((grow b n).2 : Int) - (grow b n).1.off = Len b := by
  obtain ⟨h0, h1, h2⟩ := h
  have ht1 : List.take ((b.buf.length : Int) - b.off + (n : Int)).toNat
      (List.drop b.off.toNat b.buf) = List.drop b.off.toNat b.buf :=
    List.take_of_length_le (by rw [List.length_drop]; omega)
  have ht2 : List.take ((b.buf.length : Int) - b.off).toNat
      (List.drop b.off.toNat b.buf) = List.drop b.off.toNat b.buf :=
    List.take_of_length_le (by rw [List.length_drop]; omega)
  have ht3 : List.drop ((b.buf.length : Int) - b.off).toNat
      (List.drop b.off.toNat b.buf) = [] := by
    apply List.drop_eq_nil_of_le
    rw [List.length_drop]; omega
  have ht4 : ((b.buf.length : Int) - b.off + (n : Int)).toNat
      - (b.buf.length - b.off.toNat) = n := by omega
  have ht5 : ((b.buf.length : Int) - b.off + (n : Int)).toNat
      ⊓ (b.buf.length - b.off.toNat) = b.buf.length - b.off.toNat := by omega
  unfold grow tryGrowByReslice copyBuf
  simp only [Reset, Len, Bytes, Inv]
  split_ifs with hA hB hC hD hE hF hG hH <;>
    simp_all [setLen, List.take_of_length_le, List.length_drop, List.take_append_eq_append_take,
      List.drop_append_eq_append_drop, List.take_replicate, List.drop_replicate,
      List.length_replicate] <;>
    try omega



theorem Write_spec (b : ioBuffer) (p : List Nat) (h : Inv b) :
    Inv (Write b p).1 ∧
    Bytes (Write b p).1 = Bytes b ++ p ∧
    Len (Write b p).1 = Len b + (p.length : Int) ∧
    (Write b p).2 = p.length := by
  obtain ⟨h0, h1, h2⟩ := h
  unfold Write
  by_cases hres : b.buf.length + p.length ≤ b.capa
  · simp only [tryGrowByReslice, if_pos hres, setLen_extend b.buf (b.buf.length + p.length) (by omega),
      Nat.add_sub_cancel_left, eq_self_iff_true, if_true]
    simp only [goCopy, goCopyLen, List.drop_left, List.take_left, List.length_replicate,
      min_self, List.take_length, List.drop_replicate, Nat.sub_self, List.replicate_zero,
      List.append_nil]
    refine ⟨⟨h0, by simp; omega, by simp; omega⟩, ?_, ?_, ?_⟩
    · simp only [Bytes, List.drop_append_eq_append_drop]
      have : b.off.toNat - b.buf.length = 0 := by omega
      rw [this, List.drop_zero]
    · simp [Len]; omega
    · simp
  · have hg := grow_spec b p.length ⟨h0, h1, h2⟩
    obtain ⟨⟨g0, g1, g2⟩, glen, goff0, goffle, gtake, gdrop, glendiff⟩ := hg
    simp only [tryGrowByReslice, if_neg hres, Bool.false_eq_true, if_false]
    simp only [gdrop]
    simp only [goCopy, goCopyLen, List.length_replicate, min_self, List.take_length,
      List.drop_replicate, Nat.sub_self, List.replicate_zero, List.append_nil]
    have htklen : ((grow b p.length).1.buf.take (grow b p.length).2).length = (grow b p.length).2 := by
      rw [List.length_take]; omega
    refine ⟨⟨goff0, ?_, ?_⟩, ?_, ?_, ?_⟩
    · simp only [List.length_append, htklen]; omega
    · simp only [List.length_append, htklen]; omega
    · simp only [Bytes, List.drop_append_eq_append_drop, htklen]
      have hz : (grow b p.length).1.off.toNat - (grow b p.length).2 = 0 := by omega
      rw [hz, List.drop_zero, gtake]
      simp [Bytes]
    · simp only [Len] at glendiff
      simp only [Len, List.length_append, htklen]
      omega
    · simp [goCopyLen, gdrop]

/-! ## Claim theorems -/

/-- C3: the spec says a negative offset/length argument is rejected
outright, neither clamped nor allowed to change state.  The code has no
negativity check (the declared `ErrNegativeCount` is never returned):
`Drain(-1)` on a fresh one-byte buffer passes the guard and moves
`readOffset` backwards to `-1`, breaking `0 ≤ readOffset`, while
`Peek(-1)` and `Cut(-1)` panic on the slice/`make` bounds instead of
rejecting.  This theorem evaluates the code at the failing inputs. -/
theorem C3_negative_count_not_rejected :
    (Drain (NewIoBufferBytes (some [7])) (-1)).off = -1 ∧
    Inv (NewIoBufferBytes (some [7])) ∧
    ¬ Inv (Drain (NewIoBufferBytes (some [7])) (-1)) ∧
    Peek (NewIoBufferBytes (some [7])) (-1) = none ∧
    Cut (NewIoBufferBytes (some [7])) (-1) = none := by
  decide

/-- C4 (amended): `Mark()` then `Restore()` with no intervening
consumption puts `readOffset` back to its value at `Mark` time and clears
the mark, on every buffer (hence also on one obtained from `Cut`);
`Restore` on a buffer whose `offMark` holds the `ResetOffMark` sentinel
is a no-op, and `Restore` after `Restore` never moves anything, so a
second immediate `Restore` is a no-op.  The unamended claim also asserted
the no-op for a `Cut`-produced buffer with no mark ever set, but Go's
`Cut` leaves `offMark` at its zero value `0` — an accidental active mark
— so there a bare `Restore` after partial consumption rewinds
`readOffset` to 0 (see the counterexample). -/
theorem C4_mark_restore (b : ioBuffer) :
    (Restore (Mark b)).off = b.off ∧
    (Restore (Mark b)).offMark = ResetOffMark ∧
    (b.offMark = ResetOffMark → Restore b = b) ∧
    Restore (Restore b) = Restore b := by
  refine ⟨?_, ?_, ?_, ?_⟩
  · simp only [Restore, Mark]
    split <;> simp_all
  · simp only [Restore, Mark]
    split <;> simp_all
  · intro h
    simp [Restore, h]
  · by_cases h : b.offMark = ResetOffMark
    · simp [Restore, h]
    · simp [Restore, h]

/-- C4 witness: the theorem applied to a fresh buffer, where the
no-active-mark hypothesis holds by computation. -/
theorem C4_mark_restore_witness :
    (Restore (Mark (NewIoBuffer 4))).off = (NewIoBuffer 4).off ∧
    Restore (NewIoBuffer 4) = NewIoBuffer 4 :=
  ⟨(C4_mark_restore (NewIoBuffer 4)).1,
   (C4_mark_restore (NewIoBuffer 4)).2.2.1 (by decide)⟩

/-- C4 counterexample: the buffer returned by `Cut` has `offMark` at the
Go zero value `0`, not the `ResetOffMark` sentinel, although `Mark` was
never called on it.  Reading one byte from it advances `readOffset` to 1
without touching the mark, and then a bare `Restore` is not a no-op: it
rewinds `readOffset` from 1 back to 0.  So the unamended claim's "every
Restore() call on a buffer with no active mark — is a no-op" fails on the
code for exactly the `Cut`-produced buffers the claim includes. -/
theorem C4_restore_not_noop_on_cut :
    Cut (NewIoBufferBytes (some [4, 5, 6])) 2 =
      some (some { buf := [4, 5], capa := 2, off := 0, offMark := 0,
                   count := none, eof := false },
            { buf := [4, 5, 6], capa := 3, off := 2, offMark := ResetOffMark,
              count := some 1, eof := false }) ∧
    ({ buf := [4, 5], capa := 2, off := 0, offMark := 0,
       count := none, eof := false : ioBuffer }).offMark ≠ ResetOffMark ∧
    (Read { buf := [4, 5], capa := 2, off := 0, offMark := 0,
            count := none, eof := false } [9]).1.off = 1 ∧
    (Read { buf := [4, 5], capa := 2, off := 0, offMark := 0,
            count := none, eof := false } [9]).1.offMark = 0 ∧
    (Restore (Read { buf := [4, 5], capa := 2, off := 0, offMark := 0,
                     count := none, eof := false } [9]).1).off = 0 := by
  decide

/-- C6: on a buffer with no unread bytes, `Read(dest)` resets the buffer
to empty; with non-empty `dest` it reports `io.EOF` (a sentinel, not a
fatal error) and zero bytes; with empty `dest` it succeeds with zero
bytes, leaving `dest` untouched either way. -/
theorem C6_read_exhausted (b : ioBuffer) (p : List Nat) (hInv : Inv b)
    (hEmpty : Len b = 0) :
    (Read b p).1 = Reset b ∧
    Len (Read b p).1 = 0 ∧
    (Read b p).1.buf = [] ∧
    (Read b p).2.1 = p ∧
    (Read b p).2.2.1 = 0 ∧
    (p ≠ [] → (Read b p).2.2.2 = some GoErr.eofE) ∧
    (p = [] → (Read b p).2.2.2 = none) := by
  obtain ⟨h0, h1, h2⟩ := hInv
  have hoff : b.off ≥ (b.buf.length : Int) := by
    simp only [Len] at hEmpty; omega
  simp only [Read, if_pos hoff]
  cases p with
  | nil => simp [Reset, Len]
  | cons a t => simp [Reset, Len]

/-- C6 witness: a fully drained one-byte buffer read with a one-byte and
with an empty destination. -/
theorem C6_read_exhausted_witness :
    (Read (Drain (NewIoBufferBytes (some [1])) 1) [5]).2.2.2 = some GoErr.eofE ∧
    (Read (Drain (NewIoBufferBytes (some [1])) 1) []).2.2.2 = none ∧
    Len (Read (Drain (NewIoBufferBytes (some [1])) 1) [5]).1 = 0 :=
  ⟨(C6_read_exhausted (Drain (NewIoBufferBytes (some [1])) 1) [5]
      (by decide) (by decide)).2.2.2.2.2.1 (by decide),
   (C6_read_exhausted (Drain (NewIoBufferBytes (some [1])) 1) []
      (by decide) (by decide)).2.2.2.2.2.2 rfl,
   (C6_read_exhausted (Drain (NewIoBufferBytes (some [1])) 1) [5]
      (by decide) (by decide)).2.1⟩

/-- C7: for `0 ≤ n`, `Drain(n)` advances `readOffset` by exactly `n`
(content untouched) when `n` is at most the buffered length, and is the
identity on the whole state when `n` exceeds it, so `Len()` is then
unchanged. -/
theorem C7_drain (b : ioBuffer) (n : Int) (hInv : Inv b) (hn : 0 ≤ n) :
    (n ≤ Len b →
      (Drain b n).off = b.off + n ∧ (Drain b n).buf = b.buf ∧
      Len (Drain b n) = Len b - n) ∧
    (Len b < n → Drain b n = b ∧ Len (Drain b n) = Len b) := by
  obtain ⟨h0, h1, h2⟩ := hInv
  constructor
  · intro hle
    have hguard : ¬ (b.off + n > (b.buf.length : Int)) := by
      simp only [Len] at hle; omega
    refine ⟨?_, ?_, ?_⟩ <;> simp only [Drain, if_neg hguard, Len] <;> omega
  · intro hgt
    have hguard : b.off + n > (b.buf.length : Int) := by
      simp only [Len] at hgt; omega
    refine ⟨?_, ?_⟩ <;> simp only [Drain, if_pos hguard]

/-- C7 witness: draining 2 then attempting 4 on a three-byte buffer. -/
theorem C7_drain_witness :
    (Drain (NewIoBufferBytes (some [1, 2, 3])) 2).off = 0 + 2 ∧
    Drain (NewIoBufferBytes (some [1, 2, 3])) 4 = NewIoBufferBytes (some [1, 2, 3]) :=
  ⟨((C7_drain (NewIoBufferBytes (some [1, 2, 3])) 2 (by decide) (by decide)).1
      (by decide)).1,
   ((C7_drain (NewIoBufferBytes (some [1, 2, 3])) 4 (by decide) (by decide)).2
      (by decide)).1⟩

/-- C10: the three constructors install a shared counter initialised to
1, but the buffer literal returned by `Cut` leaves `count` at its zero
value `nil`, so `Count`/`AdjustRefCount` on a `Cut`-produced buffer
dereferences a nil counter (`none`) instead of adjusting a count. -/
theorem C10_cut_buffer_has_nil_counter :
    (NewIoBuffer 5).count = some 1 ∧
    (NewIoBufferString [104, 105]).count = some 1 ∧
    (NewIoBufferBytes (some [1, 2])).count = some 1 ∧
    (NewIoBufferBytes none).count = some 1 ∧
    Cut (NewIoBufferBytes (some [1, 2, 3])) 2 =
      some (some { buf := [1, 2], capa := 2, off := 0, offMark := 0,
                   count := none, eof := false },
            { buf := [1, 2, 3], capa := 3, off := 2, offMark := ResetOffMark,
              count := some 1, eof := false }) ∧
    Count { buf := [1, 2], capa := 2, off := 0, offMark := 0,
            count := none, eof := false } 1 = none ∧
    Count (NewIoBuffer 5) 1 = some 2 := by
  decide

/-- C1: on a previously-empty buffer, `Write(X)` (which always succeeds)
followed by `Read(Y)` with `len(Y) ≥ len(X)` transfers exactly
`len(X)` bytes, so `Y[:len(X)] == X`, and `Len()` is 0 afterwards. -/
theorem C1_write_then_read (b : ioBuffer) (X Y : List Nat) (hInv : Inv b)
    (hEmpty : Len b = 0) (hY : X.length ≤ Y.length) :
    (Read (Write b X).1 Y).2.2.1 = X.length ∧
    ((Read (Write b X).1 Y).2.1).take X.length = X ∧
    Len (Read (Write b X).1 Y).1 = 0 := by
  obtain ⟨w1, w2, w3, w4⟩ := Write_spec b X hInv
  obtain ⟨h0, h1, h2⟩ := hInv
  have hBytesEmpty : Bytes b = [] := by
    simp only [Bytes]
    apply List.drop_eq_nil_of_le
    simp only [Len] at hEmpty; omega
  rw [hBytesEmpty, List.nil_append] at w2
  obtain ⟨i0, i1, i2⟩ := w1
  rcases X with _ | ⟨a, t⟩
  · have hoff : (Write b []).1.off ≥ ((Write b []).1.buf.length : Int) := by
      rw [hEmpty] at w3
      simp only [Len, List.length_nil] at w3
      omega
    simp only [Read, if_pos hoff]
    rcases Y with _ | ⟨c, u⟩ <;> simp [Reset, Len]
  · have hoff : ¬ ((Write b (a :: t)).1.off ≥ ((Write b (a :: t)).1.buf.length : Int)) := by
      simp only [Len, hEmpty] at w3
      simp only [List.length_cons] at w3
      omega
    simp only [Read, if_neg hoff]
    have havail : (Write b (a :: t)).1.buf.drop (Write b (a :: t)).1.off.toNat = a :: t := w2
    simp only [goCopyLen, goCopy, havail]
    have hlen : (a :: t).length ≤ Y.length := hY
    have hmin : min Y.length (a :: t).length = (a :: t).length := by omega
    refine ⟨by rw [hmin], ?_, ?_⟩
    · rw [hmin, List.take_append_eq_append_take]
      simp
    · rw [hEmpty] at w3
      simp only [Len] at w3
      simp only [Len, hmin]
      omega

/-- C1 witness: writing two bytes into a fresh buffer and reading into a
three-byte destination. -/
theorem C1_write_then_read_witness :
    (Read (Write (NewIoBuffer 4) [1, 2]).1 [0, 0, 0]).2.2.1 = 2 ∧
    ((Read (Write (NewIoBuffer 4) [1, 2]).1 [0, 0, 0]).2.1).take 2 = [1, 2] ∧
    Len (Read (Write (NewIoBuffer 4) [1, 2]).1 [0, 0, 0]).1 = 0 :=
  C1_write_then_read (NewIoBuffer 4) [1, 2] [0, 0, 0] (by decide) (by decide)
    (by decide)


/-- When the `WriteTo` loop returns without panicking it leaves `buf` and
`capa` intact and advances `off` by exactly the total count accepted by
the sink, preserving the invariant. -/
theorem WriteToAux_spec (w : Nat → Nat × Option GoErr) (k : Nat) (b : ioBuffer) (acc : Nat) :
    Inv b → ∀ r, WriteToAux w k b acc = some r →
      r.2.2.buf = b.buf ∧ r.2.2.capa = b.capa ∧
      r.2.2.off = b.off + ((r.1 : Int) - (acc : Int)) ∧
      acc ≤ r.1 ∧ Inv r.2.2 := by
  induction k, b, acc using WriteToAux.induct w with
  | case1 k b acc hlt nB m hgt =>
      intro hInv r hr
      rw [WriteToAux] at hr
      rw [dif_pos hlt, dif_pos hgt] at hr
      exact absurd hr (by simp)
  | case2 k b acc hlt nB m e hm he =>
      intro hInv r hr
      rw [WriteToAux] at hr
      rw [dif_pos hlt, dif_neg hm, if_pos he] at hr
      obtain ⟨h0, h1, h2⟩ := hInv
      have hm' : ¬ ((w k).1 : Int) > Len b := hm
      simp only [not_lt, Len] at hm'
      cases hr
      dsimp only
      refine ⟨rfl, rfl, by push_cast; ring, by omega, ⟨by dsimp only; omega, by dsimp only; omega, h2⟩⟩
  | case3 k b acc hlt nB m e hm he hs =>
      intro hInv r hr
      rw [WriteToAux] at hr
      rw [dif_pos hlt, dif_neg hm, if_neg he, dif_pos hs] at hr
      obtain ⟨h0, h1, h2⟩ := hInv
      have hm' : ¬ ((w k).1 : Int) > Len b := hm
      simp only [not_lt, Len] at hm'
      cases hr
      dsimp only
      refine ⟨rfl, rfl, by push_cast; ring, by omega, ⟨by dsimp only; omega, by dsimp only; omega, h2⟩⟩
  | case4 k b acc hlt nB m e hm b' he hs ih =>
      intro hInv r hr
      rw [WriteToAux] at hr
      rw [dif_pos hlt, dif_neg hm, if_neg he, dif_neg hs] at hr
      obtain ⟨h0, h1, h2⟩ := hInv
      have hm' : ¬ ((w k).1 : Int) > Len b := hm
      simp only [not_lt, Len] at hm'
      have hInv' : Inv { b with off := b.off + ((w k).1 : Int) } :=
        ⟨by dsimp only; omega, by dsimp only; omega, h2⟩
      obtain ⟨j1, j2, j3, j4, j5⟩ := ih hInv' r hr
      refine ⟨j1, j2, ?_, by omega, j5⟩
      simp only at j3
      rw [j3]
      push_cast
      ring
  | case5 k b acc hnlt =>
      intro hInv r hr
      rw [WriteToAux] at hr
      rw [dif_neg hnlt] at hr
      cases hr
      exact ⟨rfl, rfl, by push_cast; ring, le_refl _, hInv⟩


/-- C2 (amended): the public operations preserve the invariant
`0 ≤ readOffset ≤ writeOffset ≤ capacity` as follows — `Read`, `Write`
(through `grow`, which restores the invariant before returning), `Reset`,
`Mark`, `Cut` and `WriteTo` for every argument on which they return,
`Drain` for every nonnegative count, and `Restore` when there is no
active mark or the active mark lies within the current logical length.
The claim's "every argument" is false on the code: see the
counterexample. -/
theorem C2_invariant_preservation (b : ioBuffer) (hInv : Inv b) :
    (∀ p, Inv (Read b p).1) ∧
    (∀ p, Inv (Write b p).1) ∧
    (∀ n : Nat, Inv (grow b n).1) ∧
    Inv (Reset b) ∧
    Inv (Mark b) ∧
    (∀ n : Int, 0 ≤ n → Inv (Drain b n)) ∧
    (∀ n : Int, ∀ r, Cut b n = some r → Inv r.2 ∧ ∀ cb, r.1 = some cb → Inv cb) ∧
    (∀ w r, WriteTo b w = some r → Inv r.2.2) ∧
    (b.offMark = ResetOffMark → Inv (Restore b)) ∧
    (b.offMark ≠ ResetOffMark → 0 ≤ b.offMark → b.offMark ≤ (b.buf.length : Int) →
      Inv (Restore b)) := by
  obtain ⟨h0, h1, h2⟩ := hInv
  refine ⟨?_, ?_, ?_, ?_, ?_, ?_, ?_, ?_, ?_, ?_⟩
  · intro p
    by_cases h : b.off ≥ (b.buf.length : Int)
    · simp only [Read, if_pos h, Reset]
      split_ifs with hp <;> refine ⟨?_, ?_, ?_⟩ <;> simp
    · simp only [Read, if_neg h, goCopyLen]
      refine ⟨by dsimp only; omega, ?_, h2⟩
      dsimp only
      rw [List.length_drop]
      omega
  · exact fun p => (Write_spec b p ⟨h0, h1, h2⟩).1
  · exact fun n => (grow_spec b n ⟨h0, h1, h2⟩).1
  · exact ⟨by simp [Reset], by simp [Reset], by simp [Reset]⟩
  · exact ⟨h0, h1, h2⟩
  · intro n hn
    unfold Drain
    split_ifs with h
    · exact ⟨h0, h1, h2⟩
    · exact ⟨by dsimp only; omega, by dsimp only; omega, h2⟩
  · intro n r hr
    unfold Cut at hr
    split_ifs at hr with hg hneg
    · cases hr
      exact ⟨⟨h0, h1, h2⟩, fun cb hcb => by cases hcb⟩
    · cases hr
      constructor
      · exact ⟨by dsimp only; omega, by dsimp only; omega, h2⟩
      · intro cb hcb
        cases hcb
        refine ⟨by norm_num, by positivity, ?_⟩
        dsimp only
        rw [List.length_take, List.length_drop]
        omega
  · intro w r hr
    exact (WriteToAux_spec w 0 b 0 ⟨h0, h1, h2⟩ r hr).2.2.2.2
  · intro h
    have heq : Restore b = b := by simp [Restore, h]
    rw [heq]
    exact ⟨h0, h1, h2⟩
  · intro hne hm0 hm1
    have heq : Restore b = { b with off := b.offMark, offMark := ResetOffMark } := by
      simp [Restore, hne]
    rw [heq]
    exact ⟨hm0, by dsimp only; omega, h2⟩

/-- C2 counterexample: the claim as stated fails twice on the code.
`Drain(-1)` on a fresh buffer drives `readOffset` to `-1`; and on the
reachable state built by Write 10 bytes, Drain 7, Mark, Read 1 byte,
Write 1 byte — where `grow` slides the unread bytes down but leaves the
mark at its stale coordinate 7 — `Restore` sets `readOffset = 7` past
`writeOffset = 3`, so the invariant is violated at an observable point. -/
theorem C2_invariant_counterexample :
    (Inv (NewIoBufferBytes (some [7])) ∧
     ¬ Inv (Drain (NewIoBufferBytes (some [7])) (-1))) ∧
    (Inv (Write (Read (Mark (Drain (Write (NewIoBuffer 10)
          [0, 1, 2, 3, 4, 5, 6, 7, 8, 9]).1 7)) [99]).1 [55]).1 ∧
     ¬ Inv (Restore (Write (Read (Mark (Drain (Write (NewIoBuffer 10)
          [0, 1, 2, 3, 4, 5, 6, 7, 8, 9]).1 7)) [99]).1 [55]).1)) := by
  decide

/-- C2 witness: the amended preservation theorem applied to a concrete
buffer for `Drain 1` and `Write [9]`. -/
theorem C2_invariant_witness :
    Inv (Drain (NewIoBufferBytes (some [1, 2])) 1) ∧
    Inv (Write (NewIoBufferBytes (some [1, 2])) [9]).1 :=
  ⟨(C2_invariant_preservation (NewIoBufferBytes (some [1, 2]))
      (by decide)).2.2.2.2.2.1 1 (by decide),
   (C2_invariant_preservation (NewIoBufferBytes (some [1, 2]))
      (by decide)).2.1 [9]⟩

/-- C8: `WriteTo(sink)` advances `readOffset` by exactly the total bytes
the sink reports accepting (first conjunct, any terminating run); a sink
reporting more than the `Len()` bytes offered makes it panic
(`ErrInvalidWriteCount`, modelled `none`) rather than clamp or continue
(second conjunct); and it stops at once, successfully, as soon as the sink
accepts zero bytes or exactly the remaining unread length (third
conjunct). -/
theorem C8_writeTo_contract (b : ioBuffer) (w : Nat → Nat × Option GoErr)
    (hInv : Inv b) :
    (∀ r, WriteTo b w = some r →
        r.2.2.off = b.off + (r.1 : Int) ∧ r.2.2.buf = b.buf) ∧
    (b.off < (b.buf.length : Int) → ((w 0).1 : Int) > Len b → WriteTo b w = none) ∧
    (b.off < (b.buf.length : Int) → (w 0).2 = none →
      ((w 0).1 = 0 ∨ ((w 0).1 : Int) = Len b) →
      WriteTo b w =
        some ((w 0).1, none, { b with off := b.off + ((w 0).1 : Int) })) := by
  refine ⟨?_, ?_, ?_⟩
  · intro r hr
    obtain ⟨j1, j2, j3, j4, j5⟩ := WriteToAux_spec w 0 b 0 hInv r hr
    refine ⟨?_, j1⟩
    rw [j3]
    push_cast
    ring
  · intro hlt hgt
    unfold WriteTo
    rw [WriteToAux]
    rw [dif_pos hlt, dif_pos hgt]
  · intro hlt he hs
    have hng : ¬ ((w 0).1 : Int) > Len b := by
      rcases hs with h | h
      · rw [h]
        simp only [Len]
        omega
      · rw [h]
        exact lt_irrefl _
    unfold WriteTo
    rw [WriteToAux]
    rw [dif_pos hlt, dif_neg hng, if_neg (by simp [he]), dif_pos hs]
    simp


/-- C9: one step of the `ReadOnce` loop, with enough free space that the
space fix-up is the identity.  `first = false` encodes "at least one
successful read has already occurred in this call": the loop's only
recursive call passes `first := false` and is guarded by an error-free
attempt.  A deadline-expiry (a `net.Error` whose `Timeout()` is true)
with `first = false` stops the loop and returns success with the bytes
accumulated so far; a deadline-expiry on the very first attempt, or any
non-timeout failure at any attempt, is returned immediately as an error,
after the bytes delivered by that attempt have been appended to the
buffer and counted in the running total. -/
theorem C9_loop_failure (src : Nat → List Nat × Option GoErr) (fuel k : Nat)
    (b : ioBuffer) (n : Int) (loopFlag : Bool)
    (hfree : MinRead ≤ b.capa - b.buf.length) :
    ((src k).2 = some GoErr.timeoutE →
      readOnceLoop src (fuel + 1) k b n false loopFlag =
        (if 0 < min (src k).1.length (b.capa - b.buf.length) then
            { b with buf := b.buf ++ (src k).1.take (min (src k).1.length (b.capa - b.buf.length)) }
          else b,
         n + (min (src k).1.length (b.capa - b.buf.length) : Int), none)) ∧
    ((src k).2 = some GoErr.timeoutE →
      readOnceLoop src (fuel + 1) k b n true loopFlag =
        (if 0 < min (src k).1.length (b.capa - b.buf.length) then
            { b with buf := b.buf ++ (src k).1.take (min (src k).1.length (b.capa - b.buf.length)) }
          else b,
         n + (min (src k).1.length (b.capa - b.buf.length) : Int),
         some GoErr.timeoutE)) ∧
    (∀ err : GoErr, (src k).2 = some err → err ≠ GoErr.timeoutE → ∀ first : Bool,
      readOnceLoop src (fuel + 1) k b n first loopFlag =
        (if 0 < min (src k).1.length (b.capa - b.buf.length) then
            { b with buf := b.buf ++ (src k).1.take (min (src k).1.length (b.capa - b.buf.length)) }
          else b,
         n + (min (src k).1.length (b.capa - b.buf.length) : Int),
         some err)) := by
  have hfree' : 512 ≤ b.capa - b.buf.length := hfree
  have hnl : ¬ (b.capa - b.buf.length < MinRead) := by
    simp only [MinRead]
    omega
  refine ⟨?_, ?_, ?_⟩
  · intro ht
    simp [readOnceLoop, ht, hnl]
    omega
  · intro ht
    simp [readOnceLoop, ht, hnl]
    omega
  · intro err herr hne first
    cases first
    · simp [readOnceLoop, herr, hnl, hne]
      omega
    · simp [readOnceLoop, herr, hnl, hne]
      omega

/-- C9 witness: a timeout on the second attempt (`first = false`) of a
fresh 600-byte buffer returns success with the running total intact. -/
theorem C9_loop_failure_witness :
    readOnceLoop (fun _ => ([], some GoErr.timeoutE)) 5 1 (NewIoBuffer 600) 1 false true =
      (NewIoBuffer 600, 1, none) := by
  have h := (C9_loop_failure (fun _ => ([], some GoErr.timeoutE)) 4 1
      (NewIoBuffer 600) 1 true (by decide)).1 rfl
  simpa using h

/-- C8 witness: a sink over-reporting 5 on 3 buffered bytes panics; a
sink accepting exactly the remaining 3 bytes stops with success. -/
theorem C8_writeTo_contract_witness :
    WriteTo (NewIoBufferBytes (some [1, 2, 3])) (fun _ => (5, none)) = none ∧
    WriteTo (NewIoBufferBytes (some [1, 2, 3])) (fun _ => (3, none)) =
      some (3, none, { buf := [1, 2, 3], capa := 3, off := 0 + (3 : Int),
                       offMark := ResetOffMark, count := some 1, eof := false }) :=
  ⟨(C8_writeTo_contract (NewIoBufferBytes (some [1, 2, 3])) (fun _ => (5, none))
      (by decide)).2.1 (by decide) (by decide),
   (C8_writeTo_contract (NewIoBufferBytes (some [1, 2, 3])) (fun _ => (3, none))
      (by decide)).2.2 (by decide) rfl (Or.inr (by decide))⟩


/-- C5: for `n ≥ 0`, `Cut(n)` with `n` exceeding the buffered length
reports insufficient data (`nil`) and leaves the buffer untouched;
otherwise it returns a brand-new buffer holding a copy of the first `n`
unread bytes — fresh storage allocated by `make` and filled by `copy`, a
value copy in this embedding, so later mutation of either buffer cannot
affect the other — advances the source's `readOffset` by exactly `n`, and
clears the source's mark. -/
theorem C5_cut_spec (b : ioBuffer) (n : Int) (hInv : Inv b) (hn : 0 ≤ n) :
    (Len b < n → Cut b n = some (none, b)) ∧
    (n ≤ Len b →
      Cut b n =
        some (some { buf := (Bytes b).take n.toNat, capa := n.toNat, off := 0,
                     offMark := 0, count := none, eof := false },
              { b with off := b.off + n, offMark := ResetOffMark }) ∧
      ((Bytes b).take n.toNat).length = n.toNat) := by
  obtain ⟨h0, h1, h2⟩ := hInv
  constructor
  · intro hgt
    have hguard : b.off + n > (b.buf.length : Int) := by
      simp only [Len] at hgt; omega
    simp [Cut, hguard]
  · intro hle
    have hguard : ¬ (b.off + n > (b.buf.length : Int)) := by
      simp only [Len] at hle; omega
    have hneg : ¬ (n < 0) := by omega
    refine ⟨by simp [Cut, hguard, hneg, Bytes], ?_⟩
    simp only [Bytes, List.length_take, List.length_drop]
    simp only [Len] at hle
    omega

/-- C5 witness: cutting 4 from a three-byte buffer reports insufficient
data; cutting 2 returns the copied prefix and advances the source. -/
theorem C5_cut_spec_witness :
    Cut (NewIoBufferBytes (some [1, 2, 3])) 4 =
      some (none, NewIoBufferBytes (some [1, 2, 3])) ∧
    Cut (NewIoBufferBytes (some [1, 2, 3])) 2 =
      some (some { buf := [1, 2], capa := 2, off := 0, offMark := 0,
                   count := none, eof := false },
            { buf := [1, 2, 3], capa := 3, off := 0 + 2, offMark := ResetOffMark,
              count := some 1, eof := false }) := by
  constructor
  · exact (C5_cut_spec (NewIoBufferBytes (some [1, 2, 3])) 4 (by decide)
      (by decide)).1 (by decide)
  · have h := ((C5_cut_spec (NewIoBufferBytes (some [1, 2, 3])) 2 (by decide)
      (by decide)).2 (by decide)).1
    rw [h]
    rfl

end BufferProof
